import Mathlib

/-!
Verification of the ShivyC hand-written parser (parser.py).

The parser converts a list of lexer tokens into an AST for a tiny C subset:
a single main function whose body is a sequence of statements (return,
expression statement) and declarations.  Expressions are parsed by an
embedded shift-reduce loop with a precedence table, and failures are
recorded in an error accumulator from which the most advanced error is
raised when the whole parse fails.

Embedding conventions:
  - token lists are Lean lists; a parse position is a Nat index into them;
  - the failure index stored with each recorded error is an Int, mirroring
    the Python int arithmetic in make_error which tests index against zero;
  - Python list indexing that could fall out of range is modelled with
    Option (a none result stands for an IndexError);
  - the two unbounded while loops of the source (the statement loop of
    expect_main and the shift-reduce loop of expect_expression) are
    modelled with an explicit fuel parameter.  The fuel passed at the call
    sites is proved sufficient below, so the out-of-fuel branches are
    unreachable and the fueled functions agree with the loops they embed.
-/

/-- Modelled from the spec: the token-kind enumeration of the external
token_kinds module.  The spec lists the closed set of kinds the parser
consumes. -/
inductive TokenKind where
  | int_kw
  | main
  | open_paren
  | close_paren
  | open_brack
  | close_brack
  | return_kw
  | semicolon
  | number
  | identifier
  | plus
  | star
  | equals
deriving DecidableEq

/-- Modelled from the spec: a token of the external tokens module, an opaque
unit with a kind and enough display information to render an error. -/
structure Token where
  kind : TokenKind
  content : String
deriving DecidableEq

/-- Modelled from the spec: the AST node variants of the external ast module.
The parser only instantiates them with already parsed children. -/
inductive Node where
  | MainNode (body : List Node)
  | ReturnNode (expr : Node)
  | ExprStatementNode (expr : Node)
  | DeclarationNode (name : Token)
  | NumberNode (tok : Token)
  | IdentifierNode (tok : Token)
  | BinaryOperatorNode (left : Node) (op : Token) (right : Node)

mutual

/-- Decidable equality of AST nodes, written by hand because the derive
handler does not support the nested list in MainNode. -/
def nodeDecEq : (a b : Node) → Decidable (a = b)
  | Node.MainNode xs, Node.MainNode ys =>
    match nodeListDecEq xs ys with
    | isTrue h => isTrue (by rw [h])
    | isFalse h => isFalse (by simp [h])
  | Node.ReturnNode x, Node.ReturnNode y =>
    match nodeDecEq x y with
    | isTrue h => isTrue (by rw [h])
    | isFalse h => isFalse (by simp [h])
  | Node.ExprStatementNode x, Node.ExprStatementNode y =>
    match nodeDecEq x y with
    | isTrue h => isTrue (by rw [h])
    | isFalse h => isFalse (by simp [h])
  | Node.DeclarationNode x, Node.DeclarationNode y =>
    match decEq x y with
    | isTrue h => isTrue (by rw [h])
    | isFalse h => isFalse (by simp [h])
  | Node.NumberNode x, Node.NumberNode y =>
    match decEq x y with
    | isTrue h => isTrue (by rw [h])
    | isFalse h => isFalse (by simp [h])
  | Node.IdentifierNode x, Node.IdentifierNode y =>
    match decEq x y with
    | isTrue h => isTrue (by rw [h])
    | isFalse h => isFalse (by simp [h])
  | Node.BinaryOperatorNode l1 o1 r1, Node.BinaryOperatorNode l2 o2 r2 =>
    match nodeDecEq l1 l2, decEq o1 o2, nodeDecEq r1 r2 with
    | isTrue h1, isTrue h2, isTrue h3 => isTrue (by rw [h1, h2, h3])
    | isFalse h1, _, _ => isFalse (by simp [h1])
    | _, isFalse h2, _ => isFalse (by simp [h2])
    | _, _, isFalse h3 => isFalse (by simp [h3])
  | Node.MainNode _, Node.ReturnNode _ => isFalse (fun h => Node.noConfusion h)
  | Node.MainNode _, Node.ExprStatementNode _ => isFalse (fun h => Node.noConfusion h)
  | Node.MainNode _, Node.DeclarationNode _ => isFalse (fun h => Node.noConfusion h)
  | Node.MainNode _, Node.NumberNode _ => isFalse (fun h => Node.noConfusion h)
  | Node.MainNode _, Node.IdentifierNode _ => isFalse (fun h => Node.noConfusion h)
  | Node.MainNode _, Node.BinaryOperatorNode _ _ _ => isFalse (fun h => Node.noConfusion h)
  | Node.ReturnNode _, Node.MainNode _ => isFalse (fun h => Node.noConfusion h)
  | Node.ReturnNode _, Node.ExprStatementNode _ => isFalse (fun h => Node.noConfusion h)
  | Node.ReturnNode _, Node.DeclarationNode _ => isFalse (fun h => Node.noConfusion h)
  | Node.ReturnNode _, Node.NumberNode _ => isFalse (fun h => Node.noConfusion h)
  | Node.ReturnNode _, Node.IdentifierNode _ => isFalse (fun h => Node.noConfusion h)
  | Node.ReturnNode _, Node.BinaryOperatorNode _ _ _ => isFalse (fun h => Node.noConfusion h)
  | Node.ExprStatementNode _, Node.MainNode _ => isFalse (fun h => Node.noConfusion h)
  | Node.ExprStatementNode _, Node.ReturnNode _ => isFalse (fun h => Node.noConfusion h)
  | Node.ExprStatementNode _, Node.DeclarationNode _ => isFalse (fun h => Node.noConfusion h)
  | Node.ExprStatementNode _, Node.NumberNode _ => isFalse (fun h => Node.noConfusion h)
  | Node.ExprStatementNode _, Node.IdentifierNode _ => isFalse (fun h => Node.noConfusion h)
  | Node.ExprStatementNode _, Node.BinaryOperatorNode _ _ _ => isFalse (fun h => Node.noConfusion h)
  | Node.DeclarationNode _, Node.MainNode _ => isFalse (fun h => Node.noConfusion h)
  | Node.DeclarationNode _, Node.ReturnNode _ => isFalse (fun h => Node.noConfusion h)
  | Node.DeclarationNode _, Node.ExprStatementNode _ => isFalse (fun h => Node.noConfusion h)
  | Node.DeclarationNode _, Node.NumberNode _ => isFalse (fun h => Node.noConfusion h)
  | Node.DeclarationNode _, Node.IdentifierNode _ => isFalse (fun h => Node.noConfusion h)
  | Node.DeclarationNode _, Node.BinaryOperatorNode _ _ _ => isFalse (fun h => Node.noConfusion h)
  | Node.NumberNode _, Node.MainNode _ => isFalse (fun h => Node.noConfusion h)
  | Node.NumberNode _, Node.ReturnNode _ => isFalse (fun h => Node.noConfusion h)
  | Node.NumberNode _, Node.ExprStatementNode _ => isFalse (fun h => Node.noConfusion h)
  | Node.NumberNode _, Node.DeclarationNode _ => isFalse (fun h => Node.noConfusion h)
  | Node.NumberNode _, Node.IdentifierNode _ => isFalse (fun h => Node.noConfusion h)
  | Node.NumberNode _, Node.BinaryOperatorNode _ _ _ => isFalse (fun h => Node.noConfusion h)
  | Node.IdentifierNode _, Node.MainNode _ => isFalse (fun h => Node.noConfusion h)
  | Node.IdentifierNode _, Node.ReturnNode _ => isFalse (fun h => Node.noConfusion h)
  | Node.IdentifierNode _, Node.ExprStatementNode _ => isFalse (fun h => Node.noConfusion h)
  | Node.IdentifierNode _, Node.DeclarationNode _ => isFalse (fun h => Node.noConfusion h)
  | Node.IdentifierNode _, Node.NumberNode _ => isFalse (fun h => Node.noConfusion h)
  | Node.IdentifierNode _, Node.BinaryOperatorNode _ _ _ => isFalse (fun h => Node.noConfusion h)
  | Node.BinaryOperatorNode _ _ _, Node.MainNode _ => isFalse (fun h => Node.noConfusion h)
  | Node.BinaryOperatorNode _ _ _, Node.ReturnNode _ => isFalse (fun h => Node.noConfusion h)
  | Node.BinaryOperatorNode _ _ _, Node.ExprStatementNode _ => isFalse (fun h => Node.noConfusion h)
  | Node.BinaryOperatorNode _ _ _, Node.DeclarationNode _ => isFalse (fun h => Node.noConfusion h)
  | Node.BinaryOperatorNode _ _ _, Node.NumberNode _ => isFalse (fun h => Node.noConfusion h)
  | Node.BinaryOperatorNode _ _ _, Node.IdentifierNode _ => isFalse (fun h => Node.noConfusion h)

/-- Decidable equality of AST node lists, the companion of nodeDecEq. -/
def nodeListDecEq : (xs ys : List Node) → Decidable (xs = ys)
  | [], [] => isTrue rfl
  | [], _ :: _ => isFalse (fun h => List.noConfusion h)
  | _ :: _, [] => isFalse (fun h => List.noConfusion h)
  | x :: xs, y :: ys =>
    match nodeDecEq x y, nodeListDecEq xs ys with
    | isTrue h1, isTrue h2 => isTrue (by rw [h1, h2])
    | isFalse h1, _ => isFalse (by simp [h1])
    | _, isFalse h2 => isFalse (by simp [h2])

end

instance : DecidableEq Node := nodeDecEq

/-- Modelled from the spec: the CompilerError of the external errors module.
Message rendering is an external collaborator, so the error keeps the
message template and the token it was rendered against. -/
structure CompilerError where
  descrip : String
  tok : Option Token
deriving DecidableEq

/-- Modelled from the spec: errors.token_error renders a message template
against the displayed text of a token; modelled as recording both. -/
def token_error (descrip : String) (tok : Token) : CompilerError :=
  ⟨descrip, some tok⟩

/-- The AT, GOT and AFTER message-style constants of Parser. -/
inductive MsgType where
  | AT
  | GOT
  | AFTER
deriving DecidableEq

/-- The error accumulator: pairs of a compiler error and the index at which
that error occurred, in the order the errors were appended. -/
abbrev Errors := List (CompilerError × Int)

/-- Python list indexing tokens[i] with an Int index: negative indices wrap
once from the end, anything still out of range is an IndexError (none). -/
def pyGet (tokens : List Token) (i : Int) : Option Token :=
  let j : Int := if i < 0 then (tokens.length : Int) + i else i
  if 0 ≤ j ∧ j < (tokens.length : Int) then tokens.get? j.toNat else none

/-- Parser.make_error: build a CompilerError from a message, a failure
index, the token list and a message style, clamping the index into range.
A none result models an IndexError; make_error_isSome shows it cannot
happen. -/
def make_error (message : String) (index : Int) (tokens : List Token)
    (message_type : MsgType) : Option CompilerError :=
  if tokens.length = 0 then
    some ⟨message ++ " at beginning of source", none⟩
  else
    -- if the index is too big, we are always using the AFTER form;
    -- if the index is too small, we should not use the AFTER form
    let p : Int × MsgType :=
      if index ≥ (tokens.length : Int) then ((tokens.length : Int), MsgType.AFTER)
      else if index ≤ 0 then (0, if message_type = MsgType.AFTER then MsgType.GOT else message_type)
      else (index, message_type)
    match p.2 with
    | MsgType.AT =>
        (pyGet tokens p.1).map fun t => token_error (message ++ " at \x27\x7b\x7d\x27") t
    | MsgType.GOT =>
        (pyGet tokens p.1).map fun t => token_error (message ++ ", got \x27\x7b\x7d\x27") t
    | MsgType.AFTER =>
        (pyGet tokens (p.1 - 1)).map fun t => token_error (message ++ " after \x27\x7b\x7d\x27") t

/-- Parser.add_error: record the generated error together with its index in
the accumulator and return the failure sentinel (None, 0).  If make_error
cannot build the error (impossible, see make_error_isSome), nothing is
appended. -/
def add_error (message : String) (index : Int) (tokens : List Token)
    (message_type : MsgType) (errs : Errors) : (Option Node × Nat) × Errors :=
  match make_error message index tokens message_type with
  | some e => ((none, 0), errs ++ [(e, index)])
  | none => ((none, 0), errs)

/-- Parser.match_tokens: if the tokens start with the expected kinds in
order, the number of expected kinds, else 0.  The Python version returns
False when the token list is too short and 0 on a mismatch; both are falsy
and are merged into the 0 result here. -/
def match_tokens (tokens : List Token) (kinds_expected : List TokenKind) : Nat :=
  if tokens.length < kinds_expected.length then 0
  else if (kinds_expected.zip tokens).all fun p => p.1 = p.2.kind then
    kinds_expected.length
  else 0

/-- Parser.match_token: match_tokens specialised to one expected kind. -/
def match_token (tokens : List Token) (kind_expected : TokenKind) : Nat :=
  match_tokens tokens [kind_expected]

/-- The precedence table of expect_expression: TokenKind to precedence,
higher binds tighter. -/
def binary_operators (k : TokenKind) : Option Nat :=
  match k with
  | TokenKind.plus => some 11
  | TokenKind.star => some 12
  | TokenKind.equals => some 1
  | _ => none

/-- The set of assignment operators (right associative). -/
def assignment_operators (k : TokenKind) : Bool :=
  match k with
  | TokenKind.equals => true
  | _ => false

/-- A stack entry of the shift-reduce loop: an unreduced token or a reduced
expression node. -/
inductive StackEntry where
  | tok (t : Token)
  | node (n : Node)
deriving DecidableEq

/-- The StackItem namedtuple of expect_expression: the entry plus the
number of tokens consumed in generating it. -/
structure StackItem where
  item : StackEntry
  length : Nat
deriving DecidableEq

/-- Guard of the binary reduction: the next unconsumed token is a binary
operator of strictly higher precedence than the operator on the stack. -/
def next_higher_prec (tokens : List Token) (i : Nat) (opk : TokenKind) : Bool :=
  match tokens.get? i with
  | some t =>
    match binary_operators t.kind, binary_operators opk with
    | some p, some q => decide (q < p)
    | _, _ => false
  | none => false

/-- Guard of the binary reduction: the stack operator and the next
unconsumed token are both assignment operators. -/
def both_assignment (tokens : List Token) (i : Nat) (opk : TokenKind) : Bool :=
  match tokens.get? i with
  | some t => assignment_operators opk && assignment_operators t.kind
  | none => false

/-- One reduction step of the shift-reduce loop of expect_expression, with
the top of the stack at the head of the list.  Returns the reduced stack,
or none when no reduction applies (the loop then shifts or stops).  The
three branches are, in order: reduce a number token to a leaf node, reduce
an identifier token to a leaf node, reduce expression-operator-expression
to a binary operator node unless the next token has strictly higher
precedence or both operators are assignments. -/
def reduceStep (tokens : List Token) (stack : List StackItem) (i : Nat) :
    Option (List StackItem) :=
  match stack with
  | ⟨StackEntry.tok t, _⟩ :: rest =>
    if t.kind = TokenKind.number then
      some (⟨StackEntry.node (Node.NumberNode t), 1⟩ :: rest)
    else if t.kind = TokenKind.identifier then
      some (⟨StackEntry.node (Node.IdentifierNode t), 1⟩ :: rest)
    else none
  | ⟨StackEntry.node r, rlen⟩ :: ⟨StackEntry.tok op, oplen⟩ :: ⟨StackEntry.node l, llen⟩ :: rest =>
    if (binary_operators op.kind).isSome
        ∧ ¬ next_higher_prec tokens i op.kind
        ∧ ¬ both_assignment tokens i op.kind then
      some (⟨StackEntry.node (Node.BinaryOperatorNode l op r), llen + oplen + rlen⟩ :: rest)
    else none
  | _ => none

/-- The while loop of expect_expression, fueled.  Each iteration performs a
reduction if one applies, otherwise stops at the end of input or at a token
that cannot appear in an expression, otherwise shifts the next token.  The
none results are unreachable at the call site: the out-of-fuel none is
ruled out by exprLoopF_isSome_of_measure_lt, and a scan position past the
end of the list (an IndexError in Python) stops the loop here instead. -/
def exprLoopF (tokens : List Token) (fuel : Nat) (stack : List StackItem)
    (i : Nat) : Option (List StackItem × Nat) :=
  match fuel with
  | 0 => none
  | fuel + 1 =>
    match reduceStep tokens stack i with
    | some stack2 => exprLoopF tokens fuel stack2 i
    | none =>
      if i = tokens.length then some (stack, i)
      else
        match tokens.get? i with
        | none => some (stack, i)
        | some t =>
          if t.kind ≠ TokenKind.number ∧ t.kind ≠ TokenKind.identifier
              ∧ binary_operators t.kind = none then
            some (stack, i)
          else
            exprLoopF tokens fuel (⟨StackEntry.tok t, 1⟩ :: stack) (i + 1)

/-- Parser.expect_expression: run the shift-reduce loop from an empty stack
at the given index; succeed when the bottom of the final stack is an
expression node, consuming as many tokens as that node covers, otherwise
record an expected-expression error.  The fuel bound is proved sufficient
for every input in exprLoopF_fuel_sufficient. -/
def expect_expression (tokens : List Token) (index : Nat) (errs : Errors) :
    (Option Node × Nat) × Errors :=
  match exprLoopF tokens (4 * tokens.length + 1) [] index with
  | some (stack, _) =>
    match stack.getLast? with
    | some ⟨StackEntry.node n, len⟩ => ((some n, index + len), errs)
    | _ => add_error "expected expression" (index : Int) tokens MsgType.GOT errs
  | none => ((none, 0), errs)

/-- Parser.expect_semicolon: expect a semicolon at the index; on success
return the given node and the next index, otherwise record an AFTER-style
error. -/
def expect_semicolon (node : Node) (tokens : List Token) (index : Nat)
    (errs : Errors) : (Option Node × Nat) × Errors :=
  if match_token (tokens.drop index) TokenKind.semicolon ≠ 0 then
    ((some node, index + 1), errs)
  else
    add_error "expected semicolon" (index : Int) tokens MsgType.AFTER errs

/-- Parser.expect_return: return keyword, then an expression, then a
semicolon. -/
def expect_return (tokens : List Token) (index : Nat) (errs : Errors) :
    (Option Node × Nat) × Errors :=
  if match_token (tokens.drop index) TokenKind.return_kw ≠ 0 then
    match expect_expression tokens (index + 1) errs with
    | ((some node, index2), errs2) =>
        expect_semicolon (Node.ReturnNode node) tokens index2 errs2
    | ((none, _), errs2) => ((none, 0), errs2)
  else
    add_error "expected return keyword" (index : Int) tokens MsgType.GOT errs

/-- Parser.expect_expr_statement: an expression followed by a semicolon. -/
def expect_expr_statement (tokens : List Token) (index : Nat) (errs : Errors) :
    (Option Node × Nat) × Errors :=
  match expect_expression tokens index errs with
  | ((some node, index2), errs2) =>
      expect_semicolon (Node.ExprStatementNode node) tokens index2 errs2
  | ((none, _), errs2) => ((none, 0), errs2)

/-- Parser.expect_statement: try return, then expression statement; if both
fail, fail without recording a new error. -/
def expect_statement (tokens : List Token) (index : Nat) (errs : Errors) :
    (Option Node × Nat) × Errors :=
  match expect_return tokens index errs with
  | ((some node, new_index), errs2) => ((some node, new_index), errs2)
  | ((none, _), errs2) =>
    match expect_expr_statement tokens index errs2 with
    | ((some node, new_index), errs3) => ((some node, new_index), errs3)
    | ((none, _), errs3) => ((none, 0), errs3)

/-- Parser.expect_declaration: the int keyword, an identifier, then a
semicolon.  The none branch of the token lookup is unreachable because the
preceding match_token guarantees a token at that position. -/
def expect_declaration (tokens : List Token) (index : Nat) (errs : Errors) :
    (Option Node × Nat) × Errors :=
  if match_token (tokens.drop index) TokenKind.int_kw ≠ 0 then
    if match_token (tokens.drop (index + 1)) TokenKind.identifier ≠ 0 then
      match tokens.get? (index + 1) with
      | some variable_name =>
          expect_semicolon (Node.DeclarationNode variable_name) tokens (index + 2) errs
      | none => ((none, 0), errs)
    else
      add_error "expected identifier" ((index : Int) + 1) tokens MsgType.AFTER errs
  else
    add_error "expected type name" (index : Int) tokens MsgType.GOT errs

/-- The statement-or-declaration loop in the body of expect_main, fueled:
try a statement, then a declaration, at the current index; append the
recognized node and continue from its end, stopping when neither matches.
The out-of-fuel none is unreachable at the call site, see
bodyLoopF_isSome. -/
def bodyLoopF (tokens : List Token) (fuel : Nat) (index : Nat)
    (nodes : List Node) (errs : Errors) : Option ((List Node × Nat) × Errors) :=
  match fuel with
  | 0 => none
  | fuel + 1 =>
    match expect_statement tokens index errs with
    | ((some node, new_index), errs2) =>
        bodyLoopF tokens fuel new_index (nodes ++ [node]) errs2
    | ((none, _), errs2) =>
      match expect_declaration tokens index errs2 with
      | ((some node, new_index), errs3) =>
          bodyLoopF tokens fuel new_index (nodes ++ [node]) errs3
      | ((none, _), errs3) => some ((nodes, index), errs3)

/-- The five-token prologue of the main function. -/
def kinds_before : List TokenKind :=
  [TokenKind.int_kw, TokenKind.main, TokenKind.open_paren,
   TokenKind.close_paren, TokenKind.open_brack]

/-- Parser.expect_main: match the prologue, parse the body, then require a
closing brace.  The none branch of the body loop is unreachable, see
bodyLoopF_isSome. -/
def expect_main (tokens : List Token) (index : Nat) (errs : Errors) :
    (Option Node × Nat) × Errors :=
  let match_start := match_tokens (tokens.drop index) kinds_before
  if match_start ≠ 0 then
    match bodyLoopF tokens (tokens.length + 2) (index + match_start) [] errs with
    | some ((nodes, index2), errs2) =>
      if match_token (tokens.drop index2) TokenKind.close_brack ≠ 0 then
        ((some (Node.MainNode nodes), index2 + 1), errs2)
      else
        add_error "expected closing brace" (index2 : Int) tokens MsgType.GOT errs2
    | none => ((none, 0), errs)
  else
    add_error "expected main function starting" (index : Int) tokens MsgType.AT errs

/-- Stable insertion used to embed the Python sorted builtin: an element is
inserted after every element whose key is less than or equal to its own, so
elements with equal keys keep their original order. -/
def pyInsert (x : CompilerError × Int) : Errors → Errors
  | [] => [x]
  | y :: ys => if y.2 ≤ x.2 then y :: pyInsert x ys else x :: y :: ys

/-- The Python sorted builtin on the error accumulator with the failure
index as key: a stable sort. -/
def pySorted (l : Errors) : Errors :=
  l.foldl (fun acc x => pyInsert x acc) []

/-- The observable outcome of Parser.parse: a returned root node, a raised
CompilerError, or an uncaught internal fault (indexing an empty list, which
cannot happen on a failing parse because the accumulator is then
non-empty). -/
inductive ParseOutcome where
  | ok (node : Node)
  | raised (e : CompilerError)
  | fault
deriving DecidableEq

/-- Parser.parse: run expect_main at index 0.  On failure raise the
recorded error that parsed the most tokens, with later-recorded errors
winning ties (the last element of the stable sort by index).  On success
with leftover tokens raise an unexpected-token error; otherwise return the
root node.  The accumulator is the state of the Parser object: it is
received as an argument and returned, never reset. -/
def parse (tokens : List Token) (errs : Errors) : ParseOutcome × Errors :=
  match expect_main tokens 0 errs with
  | ((some node, index), errs2) =>
    if tokens.drop index = [] then (ParseOutcome.ok node, errs2)
    else
      match make_error "unexpected token" (index : Int) tokens MsgType.AT with
      | some e => (ParseOutcome.raised e, errs2)
      | none => (ParseOutcome.fault, errs2)
  | ((none, _), errs2) =>
    match (pySorted errs2).getLast? with
    | some be => (ParseOutcome.raised be.1, errs2)
    | none => (ParseOutcome.fault, errs2)

/-! Measure and invariants of the shift-reduce loop. -/

/-- Number of unreduced token entries on the stack. -/
def tokCount : List StackItem → Nat
  | [] => 0
  | ⟨StackEntry.tok _, _⟩ :: rest => tokCount rest + 1
  | ⟨StackEntry.node _, _⟩ :: rest => tokCount rest

/-- Total number of source tokens covered by the stack entries. -/
def sumLen : List StackItem → Nat
  | [] => 0
  | s :: rest => s.length + sumLen rest

/-- Termination measure of the shift-reduce loop: it strictly decreases on
every reduction and on every shift. -/
def exprMeasure (tokens : List Token) (stack : List StackItem) (i : Nat) : Nat :=
  4 * (tokens.length - i) + 2 * stack.length + tokCount stack

/-- Structural invariant of the loop stack: every entry covers at least one
token and unreduced token entries cover exactly one. -/
def StackOK (stack : List StackItem) : Prop :=
  ∀ s ∈ stack, 1 ≤ s.length ∧ ∀ t, s.item = StackEntry.tok t → s.length = 1


/-- Success of a recognizer at a start index with a next index strictly
past the start; failure results satisfy it trivially. -/
def StrictProgress (index : Nat) : (Option Node × Nat) × Errors → Prop
  | ((some _, j), _) => index < j
  | ((none, _), _) => True


/-! Concrete tokens used by the concrete instantiations below. -/

def tInt : Token := ⟨TokenKind.int_kw, "int"⟩

def tMain : Token := ⟨TokenKind.main, "main"⟩

def tOP : Token := ⟨TokenKind.open_paren, "("⟩

def tCP : Token := ⟨TokenKind.close_paren, ")"⟩

def tOB : Token := ⟨TokenKind.open_brack, "\x7b"⟩

def tCB : Token := ⟨TokenKind.close_brack, "\x7d"⟩

def tRet : Token := ⟨TokenKind.return_kw, "return"⟩

def tSemi : Token := ⟨TokenKind.semicolon, ";"⟩

def tEq : Token := ⟨TokenKind.equals, "="⟩

def tPlus : Token := ⟨TokenKind.plus, "+"⟩

def tStar : Token := ⟨TokenKind.star, "*"⟩

def tNum1 : Token := ⟨TokenKind.number, "1"⟩

def tNum2 : Token := ⟨TokenKind.number, "2"⟩

def tNum3 : Token := ⟨TokenKind.number, "3"⟩

def tIdX : Token := ⟨TokenKind.identifier, "x"⟩

def tIdA : Token := ⟨TokenKind.identifier, "a"⟩

def tIdB : Token := ⟨TokenKind.identifier, "b"⟩

def tIdC : Token := ⟨TokenKind.identifier, "c"⟩

/-- C7: parsing an empty token sequence raises exactly one error, whose
message is the generic beginning-of-source message; the outcome is a
raised CompilerError and not the fault outcome that models an
out-of-range indexing on this path. -/
theorem claim7_empty_input :
    parse [] [] =
      (ParseOutcome.raised ⟨"expected main function starting at beginning of source", none⟩,
       [(⟨"expected main function starting at beginning of source", none⟩, 0)]) := rfl

/-- C2 counterexample: on the tokens of the text 1 + ; the expression
engine does not fail with an expected-expression error: it succeeds with
the partial tree Number(1), consuming one token and recording nothing,
because only the bottom of the stack is required to be a node. -/
theorem claim2_counterexample :
    expect_expression [tNum1, tPlus, tSemi] 0 [] =
      ((some (Node.NumberNode tNum1), 1), []) := rfl

/-- C3: on the tokens of the text x = 1 + 2 * 3 ; the expression engine
yields Assign(x, Add(Number(1), Mul(Number(2), Number(3)))), and the same
tree is produced inside a well-formed main body by the full parse. -/
theorem claim3_precedence :
    expect_expression [tIdX, tEq, tNum1, tPlus, tNum2, tStar, tNum3, tSemi] 0 [] =
      ((some (Node.BinaryOperatorNode (Node.IdentifierNode tIdX) tEq
          (Node.BinaryOperatorNode (Node.NumberNode tNum1) tPlus
            (Node.BinaryOperatorNode (Node.NumberNode tNum2) tStar (Node.NumberNode tNum3)))), 7), [])
    ∧ (parse [tInt, tMain, tOP, tCP, tOB, tIdX, tEq, tNum1, tPlus, tNum2, tStar, tNum3, tSemi, tCB] []).1 =
      ParseOutcome.ok (Node.MainNode [Node.ExprStatementNode
        (Node.BinaryOperatorNode (Node.IdentifierNode tIdX) tEq
          (Node.BinaryOperatorNode (Node.NumberNode tNum1) tPlus
            (Node.BinaryOperatorNode (Node.NumberNode tNum2) tStar (Node.NumberNode tNum3))))]) :=
  ⟨rfl, rfl⟩

/-- C4: on the tokens of the text a = b = c ; the expression engine yields
the right-associative tree Assign(a, Assign(b, c)), which differs from the
left-associative tree Assign(Assign(a, b), c). -/
theorem claim4_right_assoc :
    expect_expression [tIdA, tEq, tIdB, tEq, tIdC, tSemi] 0 [] =
      ((some (Node.BinaryOperatorNode (Node.IdentifierNode tIdA) tEq
          (Node.BinaryOperatorNode (Node.IdentifierNode tIdB) tEq (Node.IdentifierNode tIdC))), 5), [])
    ∧ Node.BinaryOperatorNode (Node.IdentifierNode tIdA) tEq
          (Node.BinaryOperatorNode (Node.IdentifierNode tIdB) tEq (Node.IdentifierNode tIdC)) ≠
      Node.BinaryOperatorNode
          (Node.BinaryOperatorNode (Node.IdentifierNode tIdA) tEq (Node.IdentifierNode tIdB)) tEq
          (Node.IdentifierNode tIdC) :=
  ⟨rfl, by decide⟩

/-- C6 counterexample: on the tokens of the text int main ( ) \x7b x, the
prologue and the (empty) body succeed and the closing brace is missing
with the token x at the failure index; the recorded closing-brace failure
uses the GOT message style, not the AT style the claim asserts. -/
theorem claim6_counterexample :
    (expect_main [tInt, tMain, tOP, tCP, tOB, tIdX] 0 []).1.1 = none
    ∧ (expect_main [tInt, tMain, tOP, tCP, tOB, tIdX] 0 []).2.getLast? =
        some (token_error "expected closing brace, got \x27\x7b\x7d\x27" tIdX, 5)
    ∧ token_error "expected closing brace, got \x27\x7b\x7d\x27" tIdX ≠
        token_error "expected closing brace at \x27\x7b\x7d\x27" tIdX :=
  ⟨rfl, rfl, by decide⟩

/-- C8 counterexample: with a failure index of zero and the AT message
style, make_error keeps the AT style anchored at the first token; it does
not force the GOT style as the claim asserts for every style. -/
theorem claim8_counterexample :
    make_error "expected semicolon" 0 [tSemi] MsgType.AT =
      some (token_error "expected semicolon at \x27\x7b\x7d\x27" tSemi)
    ∧ make_error "expected semicolon" 0 [tSemi] MsgType.AT ≠
      make_error "expected semicolon" 0 [tSemi] MsgType.GOT :=
  ⟨rfl, by decide⟩

/-- C9 counterexample: the error accumulator is not scoped to a single
parse invocation.  Parsing the empty token list with a fresh accumulator
raises the beginning-of-source error, but running the same parse after an
earlier failing parse on the same parser raises the closing-brace error
left over from that earlier invocation. -/
theorem claim9_counterexample :
    (parse [] []).1 =
      ParseOutcome.raised ⟨"expected main function starting at beginning of source", none⟩
    ∧ (parse [] (parse [tInt, tMain, tOP, tCP, tOB] []).2).1 =
      ParseOutcome.raised (token_error "expected closing brace after \x27\x7b\x7d\x27" tOB)
    ∧ (parse [] (parse [tInt, tMain, tOP, tCP, tOB] []).2).1 ≠ (parse [] []).1 :=
  ⟨rfl, rfl, by decide⟩

lemma get?_some_lt : ∀ {l : List Token} {i : Nat} {t : Token},
    l.get? i = some t → i < l.length := by
  intro l
  induction l with
  | nil => intro i t h; cases h
  | cons x xs ih =>
    intro i t h
    cases i with
    | zero => simp only [List.length_cons]; omega
    | succ j =>
      have := ih (i := j) (t := t) h
      simp only [List.length_cons]; omega

lemma getLast?_mem2 {α : Type} : ∀ {l : List α} {a : α}, l.getLast? = some a → a ∈ l := by
  intro l
  induction l with
  | nil => intro a h; cases h
  | cons x xs ih =>
    intro a h
    cases xs with
    | nil =>
      simp [List.getLast?] at h
      simp [h]
    | cons y ys =>
      rw [List.getLast?_cons_cons] at h
      exact List.mem_cons_of_mem x (ih h)

lemma length_le_sumLen : ∀ {stack : List StackItem} {s : StackItem},
    s ∈ stack → s.length ≤ sumLen stack := by
  intro stack
  induction stack with
  | nil => intro s h; cases h
  | cons x xs ih =>
    intro s h
    rcases List.mem_cons.mp h with h1 | h2
    · subst h1; simp only [sumLen]; omega
    · have := ih h2
      simp only [sumLen]; omega

lemma reduceStep_measure {tokens : List Token} {stack : List StackItem} {i : Nat}
    {stack2 : List StackItem} (h : reduceStep tokens stack i = some stack2) :
    2 * stack2.length + tokCount stack2 < 2 * stack.length + tokCount stack := by
  unfold reduceStep at h
  split at h
  · split at h
    · injection h with h
      subst h
      simp [tokCount, List.length_cons]
    · split at h
      · injection h with h
        subst h
        simp [tokCount, List.length_cons]
      · cases h
  · split at h
    · injection h with h
      subst h
      simp [tokCount, List.length_cons]
      omega
    · cases h
  · cases h

lemma reduceStep_spec {tokens : List Token} {stack : List StackItem} {i : Nat}
    {stack2 : List StackItem} (h : reduceStep tokens stack i = some stack2)
    (hok : StackOK stack) : StackOK stack2 ∧ sumLen stack2 = sumLen stack := by
  unfold reduceStep at h
  split at h
  case _ t len rest =>
    have hlen : len = 1 := (hok _ (List.mem_cons_self _ _)).2 t rfl
    have hrest : StackOK rest := fun s hs => hok s (List.mem_cons_of_mem _ hs)
    split at h
    · injection h with h
      subst h
      constructor
      · intro s hs
        rcases List.mem_cons.mp hs with h1 | h2
        · subst h1; exact ⟨le_refl 1, fun t ht => by cases ht⟩
        · exact hrest s h2
      · simp [sumLen, hlen]
    · split at h
      · injection h with h
        subst h
        constructor
        · intro s hs
          rcases List.mem_cons.mp hs with h1 | h2
          · subst h1; exact ⟨le_refl 1, fun t ht => by cases ht⟩
          · exact hrest s h2
        · simp [sumLen, hlen]
      · cases h
  case _ r rlen op oplen l llen rest =>
    split at h
    · injection h with h
      subst h
      have h1 : 1 ≤ llen :=
        (hok ⟨StackEntry.node l, llen⟩ (by simp [List.mem_cons])).1
      have hrest : StackOK rest := by
        intro s hs
        exact hok s (by simp [List.mem_cons, hs])
      constructor
      · intro s hs
        rcases List.mem_cons.mp hs with hh | h2
        · subst hh
          exact ⟨by simp; omega, fun t ht => by cases ht⟩
        · exact hrest s h2
      · simp [sumLen]; omega
    · cases h
  · cases h

lemma exprLoopF_spec (tokens : List Token) : ∀ (fuel : Nat) (stack : List StackItem)
    (i : Nat) (stack2 : List StackItem) (i2 : Nat),
    exprLoopF tokens fuel stack i = some (stack2, i2) → StackOK stack →
    i ≤ tokens.length →
    StackOK stack2 ∧ i ≤ i2 ∧ i2 ≤ tokens.length ∧
      sumLen stack2 + i = sumLen stack + i2 := by
  intro fuel
  induction fuel with
  | zero => intro stack i stack2 i2 h; cases h
  | succ fuel ih =>
    intro stack i stack2 i2 h hok hi
    unfold exprLoopF at h
    split at h
    case _ s2 heq =>
      obtain ⟨hok2, hsum2⟩ := reduceStep_spec heq hok
      obtain ⟨a, b, c, d⟩ := ih s2 i stack2 i2 h hok2 hi
      exact ⟨a, b, c, by omega⟩
    case _ =>
      split at h
      · injection h with h
        injection h with h1 h2
        subst h1; subst h2
        exact ⟨hok, le_refl i, hi, rfl⟩
      · split at h
        · injection h with h
          injection h with h1 h2
          subst h1; subst h2
          exact ⟨hok, le_refl i, hi, rfl⟩
        case _ t hget =>
          split at h
          · injection h with h
            injection h with h1 h2
            subst h1; subst h2
            exact ⟨hok, le_refl i, hi, rfl⟩
          · have hilt : i < tokens.length := get?_some_lt hget
            have hok2 : StackOK (⟨StackEntry.tok t, 1⟩ :: stack) := by
              intro s hs
              rcases List.mem_cons.mp hs with h1 | h2
              · subst h1; exact ⟨le_refl 1, fun _ _ => rfl⟩
              · exact hok s h2
            obtain ⟨a, b, c, d⟩ := ih _ (i + 1) stack2 i2 h hok2 (by omega)
            refine ⟨a, by omega, c, ?_⟩
            simp only [sumLen] at d
            omega

lemma exprLoopF_isSome_of_measure_lt (tokens : List Token) : ∀ (fuel : Nat)
    (stack : List StackItem) (i : Nat), exprMeasure tokens stack i < fuel →
    (exprLoopF tokens fuel stack i).isSome = true := by
  intro fuel
  induction fuel with
  | zero => intro stack i h; omega
  | succ fuel ih =>
    intro stack i h
    unfold exprLoopF
    split
    case _ s2 heq =>
      apply ih
      have := reduceStep_measure heq
      unfold exprMeasure at h ⊢
      omega
    case _ =>
      split
      · simp
      · split
        · simp
        case _ t hget =>
          split
          · simp
          · apply ih
            have hilt : i < tokens.length := get?_some_lt hget
            unfold exprMeasure at h ⊢
            simp only [tokCount, List.length_cons]
            omega

lemma exprLoopF_fuel_irrel (tokens : List Token) : ∀ (n m : Nat)
    (stack : List StackItem) (i : Nat), exprMeasure tokens stack i < n →
    exprMeasure tokens stack i < m →
    exprLoopF tokens n stack i = exprLoopF tokens m stack i := by
  intro n
  induction n with
  | zero => intro m stack i h; omega
  | succ n ih =>
    intro m stack i hn hm
    cases m with
    | zero => omega
    | succ m =>
      unfold exprLoopF
      cases heq : reduceStep tokens stack i with
      | some s2 =>
        simp only
        apply ih
        · have := reduceStep_measure heq
          unfold exprMeasure at hn ⊢
          omega
        · have := reduceStep_measure heq
          unfold exprMeasure at hm ⊢
          omega
      | none =>
        simp only
        by_cases hi : i = tokens.length
        · simp [hi]
        · simp only [if_neg hi]
          cases hget : tokens.get? i with
          | none => simp only
          | some t =>
            simp only
            split
            · rfl
            · apply ih
              · have hilt : i < tokens.length := get?_some_lt hget
                unfold exprMeasure at hn ⊢
                simp only [tokCount, List.length_cons]
                omega
              · have hilt : i < tokens.length := get?_some_lt hget
                unfold exprMeasure at hm ⊢
                simp only [tokCount, List.length_cons]
                omega

lemma exprLoopF_fuel_sufficient (tokens : List Token) (index : Nat) :
    (exprLoopF tokens (4 * tokens.length + 1) [] index).isSome = true := by
  apply exprLoopF_isSome_of_measure_lt
  unfold exprMeasure
  simp only [tokCount, List.length_nil]
  omega

/-! Progress of the recognizers. -/

lemma match_tokens_ne_zero {tokens : List Token} {ks : List TokenKind}
    (h : match_tokens tokens ks ≠ 0) :
    match_tokens tokens ks = ks.length ∧ ks.length ≤ tokens.length := by
  unfold match_tokens at h ⊢
  split at h
  case isTrue hlt => exact absurd rfl h
  case isFalse hlt =>
    split at h
    case isTrue hall =>
      rw [if_neg hlt, if_pos hall]
      exact ⟨rfl, by omega⟩
    case isFalse hall => exact absurd rfl h

lemma match_token_ne_zero {tokens : List Token} {k : TokenKind}
    (h : match_token tokens k ≠ 0) : 1 ≤ tokens.length := by
  have := (match_tokens_ne_zero h).2
  simpa using this

lemma add_error_fst (message : String) (index : Int) (tokens : List Token)
    (message_type : MsgType) (errs : Errors) :
    (add_error message index tokens message_type errs).1 = (none, 0) := by
  unfold add_error
  split <;> rfl

lemma expect_expression_progress {tokens : List Token} {index : Nat} {errs : Errors}
    {n : Node} {j : Nat} {errs2 : Errors}
    (h : expect_expression tokens index errs = ((some n, j), errs2)) :
    index < j ∧ j ≤ tokens.length := by
  unfold expect_expression at h
  split at h
  case _ stack i2 hloop =>
    split at h
    case _ m len hlast =>
      injection h with h1 h2
      injection h1 with h1a h1b
      have hm : m = n := by injection h1a
      subst hm
      subst h1b
      by_cases hidx : index ≤ tokens.length
      · have hok : StackOK ([] : List StackItem) := by
          intro s hs; cases hs
        obtain ⟨hok2, hle, hle2, hsum⟩ :=
          exprLoopF_spec tokens (4 * tokens.length + 1) [] index stack i2 hloop hok hidx
        have hmem : (⟨StackEntry.node m, len⟩ : StackItem) ∈ stack := getLast?_mem2 hlast
        have h1len : 1 ≤ len := by
          have := (hok2 _ hmem).1
          simpa using this
        have hlelen : len ≤ sumLen stack := by
          have := length_le_sumLen hmem
          simpa using this
        simp only [sumLen] at hsum
        constructor <;> omega
      · have hstep : exprLoopF tokens (4 * tokens.length + 1) [] index = some ([], index) := by
          unfold exprLoopF
          have hred : reduceStep tokens [] index = none := rfl
          rw [hred]
          have hne : ¬ index = tokens.length := by omega
          rw [if_neg hne]
          have hget : tokens.get? index = none := by
            cases hg : tokens.get? index with
            | none => rfl
            | some t =>
              have := get?_some_lt hg
              omega
          rw [hget]
        rw [hstep] at hloop
        injection hloop with hloop
        injection hloop with ha hb
        subst ha
        cases hlast
    case _ hlast =>
      have hshape := add_error_fst "expected expression" (index : Int) tokens MsgType.GOT errs
      rw [h] at hshape
      simp at hshape
  case _ =>
    injection h with h1 h2
    injection h1 with h1a h1b
    cases h1a

lemma expect_semicolon_progress {node : Node} {tokens : List Token} {index : Nat}
    {errs : Errors} {m : Node} {j : Nat} {errs2 : Errors}
    (h : expect_semicolon node tokens index errs = ((some m, j), errs2)) :
    j = index + 1 ∧ index < tokens.length := by
  unfold expect_semicolon at h
  split at h
  case _ hc =>
    injection h with h1 h2
    injection h1 with h1a h1b
    have := match_token_ne_zero hc
    rw [List.length_drop] at this
    exact ⟨h1b.symm, by omega⟩
  case _ =>
    have hshape := add_error_fst "expected semicolon" (index : Int) tokens MsgType.AFTER errs
    rw [h] at hshape
    simp at hshape

lemma expect_return_progress {tokens : List Token} {index : Nat} {errs : Errors}
    {m : Node} {j : Nat} {errs2 : Errors}
    (h : expect_return tokens index errs = ((some m, j), errs2)) :
    index < j ∧ j ≤ tokens.length := by
  unfold expect_return at h
  split at h
  case _ hc =>
    split at h
    case _ node index2 errs3 hexpr =>
      obtain ⟨h1, h2⟩ := expect_expression_progress hexpr
      obtain ⟨h3, h4⟩ := expect_semicolon_progress h
      constructor <;> omega
    case _ =>
      injection h with h1 h2
      injection h1 with h1a h1b
      cases h1a
  case _ =>
    have hshape := add_error_fst "expected return keyword" (index : Int) tokens MsgType.GOT errs
    rw [h] at hshape
    simp at hshape

lemma expect_expr_statement_progress {tokens : List Token} {index : Nat} {errs : Errors}
    {m : Node} {j : Nat} {errs2 : Errors}
    (h : expect_expr_statement tokens index errs = ((some m, j), errs2)) :
    index < j ∧ j ≤ tokens.length := by
  unfold expect_expr_statement at h
  split at h
  case _ node index2 errs3 hexpr =>
    obtain ⟨h1, h2⟩ := expect_expression_progress hexpr
    obtain ⟨h3, h4⟩ := expect_semicolon_progress h
    constructor <;> omega
  case _ =>
    injection h with h1 h2
    injection h1 with h1a h1b
    cases h1a

lemma expect_declaration_progress {tokens : List Token} {index : Nat} {errs : Errors}
    {m : Node} {j : Nat} {errs2 : Errors}
    (h : expect_declaration tokens index errs = ((some m, j), errs2)) :
    index < j ∧ j ≤ tokens.length := by
  unfold expect_declaration at h
  split at h
  case _ hc1 =>
    split at h
    case _ hc2 =>
      split at h
      case _ t hget =>
        obtain ⟨h3, h4⟩ := expect_semicolon_progress h
        constructor <;> omega
      case _ =>
        injection h with h1 h2
        injection h1 with h1a h1b
        cases h1a
    case _ =>
      have hshape := add_error_fst "expected identifier" ((index : Int) + 1) tokens MsgType.AFTER errs
      rw [h] at hshape
      simp at hshape
  case _ =>
    have hshape := add_error_fst "expected type name" (index : Int) tokens MsgType.GOT errs
    rw [h] at hshape
    simp at hshape

lemma expect_statement_progress {tokens : List Token} {index : Nat} {errs : Errors}
    {m : Node} {j : Nat} {errs2 : Errors}
    (h : expect_statement tokens index errs = ((some m, j), errs2)) :
    index < j ∧ j ≤ tokens.length := by
  unfold expect_statement at h
  split at h
  case _ node ni errs3 hret =>
    injection h with h1 h2
    injection h1 with h1a h1b
    subst h1b
    have hm : node = m := by injection h1a
    subst hm
    exact expect_return_progress hret
  case _ =>
    split at h
    case _ node ni errs4 hexprst =>
      injection h with h1 h2
      injection h1 with h1a h1b
      subst h1b
      have hm : node = m := by injection h1a
      subst hm
      exact expect_expr_statement_progress hexprst
    case _ =>
      injection h with h1 h2
      injection h1 with h1a h1b
      cases h1a

lemma bodyLoopF_isSome_of (tokens : List Token) : ∀ (fuel index : Nat)
    (nodes : List Node) (errs : Errors), tokens.length + 1 - index < fuel →
    (bodyLoopF tokens fuel index nodes errs).isSome = true := by
  intro fuel
  induction fuel with
  | zero => intro index nodes errs h; omega
  | succ fuel ih =>
    intro index nodes errs h
    unfold bodyLoopF
    split
    case _ node ni errs3 hst =>
      obtain ⟨h1, h2⟩ := expect_statement_progress hst
      exact ih ni _ _ (by omega)
    case _ errs3 hst =>
      split
      case _ node ni errs4 hdecl =>
        obtain ⟨h1, h2⟩ := expect_declaration_progress hdecl
        exact ih ni _ _ (by omega)
      case _ => simp

lemma bodyLoopF_isSome (tokens : List Token) (index : Nat) (nodes : List Node)
    (errs : Errors) :
    (bodyLoopF tokens (tokens.length + 2) index nodes errs).isSome = true :=
  bodyLoopF_isSome_of tokens (tokens.length + 2) index nodes errs (by omega)

lemma bodyLoopF_ge (tokens : List Token) : ∀ (fuel index : Nat)
    (nodes : List Node) (errs : Errors) (r : (List Node × Nat) × Errors),
    bodyLoopF tokens fuel index nodes errs = some r → index ≤ r.1.2 := by
  intro fuel
  induction fuel with
  | zero => intro index nodes errs r h; cases h
  | succ fuel ih =>
    intro index nodes errs r h
    unfold bodyLoopF at h
    split at h
    case _ node ni errs3 hst =>
      have := ih ni _ _ r h
      have := (expect_statement_progress hst).1
      omega
    case _ errs3 hst =>
      split at h
      case _ node ni errs4 hdecl =>
        have := ih ni _ _ r h
        have := (expect_declaration_progress hdecl).1
        omega
      case _ =>
        injection h with h
        subst h
        simp

lemma expect_main_progress {tokens : List Token} {index : Nat} {errs : Errors}
    {m : Node} {j : Nat} {errs2 : Errors}
    (h : expect_main tokens index errs = ((some m, j), errs2)) :
    index < j ∧ j ≤ tokens.length := by
  simp only [expect_main] at h
  split at h
  case _ hc =>
    split at h
    case _ nodes index2 errs3 hbody =>
      split at h
      case _ hclose =>
        injection h with h1 h2
        injection h1 with h1a h1b
        subst h1b
        have hge := bodyLoopF_ge tokens _ _ _ _ _ hbody
        simp only at hge
        have hlt : index2 < tokens.length := by
          have := match_token_ne_zero hclose
          rw [List.length_drop] at this
          omega
        constructor <;> omega
      case _ =>
        have hshape := add_error_fst "expected closing brace" (index2 : Int) tokens MsgType.GOT errs3
        rw [h] at hshape
        simp at hshape
    case _ =>
      injection h with h1 h2
      injection h1 with h1a h1b
      cases h1a
  case _ =>
    have hshape := add_error_fst "expected main function starting" (index : Int) tokens MsgType.AT errs
    rw [h] at hshape
    simp at hshape

lemma strictProgress_of {index : Nat} (r : (Option Node × Nat) × Errors)
    (H : ∀ m j e2, r = ((some m, j), e2) → index < j) : StrictProgress index r := by
  rcases r with ⟨⟨og, j⟩, e2⟩
  cases og with
  | none => trivial
  | some m => exact H m j e2 rfl

/-- C5: every recognizer that returns a node returns a next index strictly
greater than the start index it was called with. -/
theorem claim5_progress : ∀ (tokens : List Token) (index : Nat) (errs : Errors)
    (node : Node),
    StrictProgress index (expect_main tokens index errs) ∧
    StrictProgress index (expect_statement tokens index errs) ∧
    StrictProgress index (expect_return tokens index errs) ∧
    StrictProgress index (expect_expr_statement tokens index errs) ∧
    StrictProgress index (expect_declaration tokens index errs) ∧
    StrictProgress index (expect_expression tokens index errs) ∧
    StrictProgress index (expect_semicolon node tokens index errs) := by
  intro tokens index errs node
  refine ⟨?_, ?_, ?_, ?_, ?_, ?_, ?_⟩
  · exact strictProgress_of _ (fun m j e2 h => (expect_main_progress h).1)
  · exact strictProgress_of _ (fun m j e2 h => (expect_statement_progress h).1)
  · exact strictProgress_of _ (fun m j e2 h => (expect_return_progress h).1)
  · exact strictProgress_of _ (fun m j e2 h => (expect_expr_statement_progress h).1)
  · exact strictProgress_of _ (fun m j e2 h => (expect_declaration_progress h).1)
  · exact strictProgress_of _ (fun m j e2 h => (expect_expression_progress h).1)
  · exact strictProgress_of _ (fun m j e2 h => by
      obtain ⟨h1, h2⟩ := expect_semicolon_progress h
      omega)

/-- C10: the shift-reduce loop of expect_expression terminates on every
finite token list, every stack and every scan position: some finite fuel
makes the fueled loop return, and any additional fuel does not change the
result. -/
theorem claim10_termination : ∀ (tokens : List Token) (stack : List StackItem)
    (i : Nat), ∃ fuel, (exprLoopF tokens fuel stack i).isSome = true ∧
    ∀ extra, exprLoopF tokens (fuel + extra) stack i = exprLoopF tokens fuel stack i := by
  intro tokens stack i
  refine ⟨exprMeasure tokens stack i + 1, ?_, ?_⟩
  · exact exprLoopF_isSome_of_measure_lt tokens _ stack i (by omega)
  · intro extra
    exact exprLoopF_fuel_irrel tokens _ _ stack i (by omega) (by omega)

/-! Selection of the raised error. -/

lemma pyInsert_ne_nil (x : CompilerError × Int) : ∀ (acc : Errors), pyInsert x acc ≠ [] := by
  intro acc
  cases acc with
  | nil => simp [pyInsert]
  | cons y ys =>
    unfold pyInsert
    split <;> simp

lemma mem_pyInsert {y x : CompilerError × Int} : ∀ {acc : Errors},
    y ∈ pyInsert x acc ↔ y = x ∨ y ∈ acc := by
  intro acc
  induction acc with
  | nil => simp [pyInsert]
  | cons z zs ih =>
    unfold pyInsert
    split
    · simp only [List.mem_cons, ih]
      tauto
    · simp only [List.mem_cons]

lemma getLast?_pyInsert (x : CompilerError × Int) : ∀ (acc : Errors),
    (pyInsert x acc).getLast? =
      if ∀ y ∈ acc, y.2 ≤ x.2 then some x else acc.getLast? := by
  intro acc
  induction acc with
  | nil => simp [pyInsert]
  | cons y ys ih =>
    unfold pyInsert
    by_cases hy : y.2 ≤ x.2
    · rw [if_pos hy]
      have hne := pyInsert_ne_nil x ys
      obtain ⟨z, zs, hz⟩ := List.exists_cons_of_ne_nil hne
      rw [hz, List.getLast?_cons_cons, ← hz, ih]
      by_cases hall : ∀ w ∈ ys, w.2 ≤ x.2
      · rw [if_pos hall, if_pos ?_]
        intro w hw
        rcases List.mem_cons.mp hw with h1 | h2
        · subst h1; exact hy
        · exact hall w h2
      · rw [if_neg hall, if_neg ?_]
        swap
        · intro hc
          exact hall fun w hw => hc w (List.mem_cons_of_mem y hw)
        · push_neg at hall
          obtain ⟨w, hw, hww⟩ := hall
          have hys : ys ≠ [] := by
            intro hc
            subst hc
            cases hw
          obtain ⟨z2, zs2, hz2⟩ := List.exists_cons_of_ne_nil hys
          rw [hz2, List.getLast?_cons_cons]
    · rw [if_neg hy, List.getLast?_cons_cons, if_neg ?_]
      intro hc
      exact hy (hc y (List.mem_cons_self y ys))

lemma pySorted_append_singleton (l : Errors) (x : CompilerError × Int) :
    pySorted (l ++ [x]) = pyInsert x (pySorted l) := by
  simp [pySorted, List.foldl_append]

lemma mem_pySorted {y : CompilerError × Int} : ∀ {l : Errors},
    y ∈ pySorted l ↔ y ∈ l := by
  intro l
  induction l using List.reverseRecOn with
  | nil => simp [pySorted]
  | append_singleton l x ih =>
    rw [pySorted_append_singleton]
    rw [mem_pyInsert]
    simp only [List.mem_append, List.mem_singleton, ih]
    tauto

lemma pySorted_eq_nil {l : Errors} : pySorted l = [] ↔ l = [] := by
  induction l using List.reverseRecOn with
  | nil => simp [pySorted]
  | append_singleton l x ih =>
    rw [pySorted_append_singleton]
    constructor
    · intro h
      exact absurd h (pyInsert_ne_nil x (pySorted l))
    · intro h
      exact absurd h (by simp)

lemma pySorted_last_spec : ∀ (l : Errors) (b : CompilerError × Int),
    (pySorted l).getLast? = some b →
    ∃ pre suf, l = pre ++ b :: suf ∧ (∀ y ∈ l, y.2 ≤ b.2) ∧
      (∀ y ∈ suf, y.2 < b.2) := by
  intro l
  induction l using List.reverseRecOn with
  | nil =>
    intro b h
    simp [pySorted] at h
  | append_singleton l x ih =>
    intro b h
    rw [pySorted_append_singleton, getLast?_pyInsert] at h
    split at h
    case isTrue hall =>
      injection h with h
      subst h
      refine ⟨l, [], by simp, ?_, by simp⟩
      intro y hy
      rcases List.mem_append.mp hy with h1 | h2
      · exact hall y (mem_pySorted.mpr h1)
      · simp at h2
        subst h2
        exact le_refl _
    case isFalse hall =>
      obtain ⟨pre, suf, hdec, hmax, hsuf⟩ := ih b h
      push_neg at hall
      obtain ⟨w, hw, hww⟩ := hall
      have hwb : w.2 ≤ b.2 := hmax w (mem_pySorted.mp hw)
      have hxb : x.2 < b.2 := by omega
      refine ⟨pre, suf ++ [x], by rw [hdec]; simp, ?_, ?_⟩
      · intro y hy
        rcases List.mem_append.mp hy with h1 | h2
        · exact hmax y h1
        · simp at h2
          subst h2
          omega
      · intro y hy
        rcases List.mem_append.mp hy with h1 | h2
        · exact hsuf y h1
        · simp at h2
          subst h2
          exact hxb

/-! Totality of make_error. -/

lemma pyGet_isSome {tokens : List Token} {k : Int} (h0 : 0 ≤ k)
    (h1 : k < (tokens.length : Int)) : (pyGet tokens k).isSome = true := by
  simp only [pyGet]
  rw [if_neg (show ¬ k < 0 by omega)]
  rw [if_pos (⟨h0, h1⟩ : 0 ≤ k ∧ k < (tokens.length : Int))]
  rw [List.get?_eq_get (show k.toNat < tokens.length by omega)]
  simp

lemma map_pyGet_isSome (f : Token → CompilerError) {tokens : List Token} {k : Int}
    (h0 : 0 ≤ k) (h1 : k < (tokens.length : Int)) :
    (Option.map f (pyGet tokens k)).isSome = true := by
  rw [Option.isSome_map']
  exact pyGet_isSome h0 h1

lemma make_error_isSome (message : String) (index : Int) (tokens : List Token)
    (message_type : MsgType) :
    (make_error message index tokens message_type).isSome = true := by
  cases message_type with
  | AT =>
    simp only [make_error]
    split_ifs with h1 h2 h3 <;> simp_all <;>
      exact pyGet_isSome (by have := List.length_pos.mpr h1; omega)
        (by have := List.length_pos.mpr h1; omega)
  | GOT =>
    simp only [make_error]
    split_ifs with h1 h2 h3 <;> simp_all <;>
      exact pyGet_isSome (by have := List.length_pos.mpr h1; omega)
        (by have := List.length_pos.mpr h1; omega)
  | AFTER =>
    simp only [make_error]
    split_ifs with h1 h2 h3 <;> simp_all <;>
      exact pyGet_isSome (by have := List.length_pos.mpr h1; omega)
        (by have := List.length_pos.mpr h1; omega)

lemma add_error_append (message : String) (index : Int) (tokens : List Token)
    (message_type : MsgType) (errs : Errors) :
    ∃ e, make_error message index tokens message_type = some e ∧
      add_error message index tokens message_type errs = ((none, 0), errs ++ [(e, index)]) := by
  have h := make_error_isSome message index tokens message_type
  cases hm : make_error message index tokens message_type with
  | none => rw [hm] at h; cases h
  | some e =>
    refine ⟨e, rfl, ?_⟩
    unfold add_error
    rw [hm]

lemma expect_main_fail_errs {tokens : List Token} {index : Nat} {errs : Errors}
    {k : Nat} {errs2 : Errors}
    (h : expect_main tokens index errs = ((none, k), errs2)) : errs2 ≠ [] := by
  simp only [expect_main] at h
  split at h
  case isTrue hc =>
    split at h
    case _ nodes index2 errs3 hbody =>
      split at h
      case isTrue hclose =>
        injection h with h1 h2
        injection h1 with h1a h1b
        cases h1a
      case isFalse hclose =>
        obtain ⟨e, hm, ha⟩ := add_error_append "expected closing brace" (index2 : Int) tokens MsgType.GOT errs3
        rw [ha] at h
        injection h with h1 h2
        subst h2
        simp
    case _ hbody =>
      have := bodyLoopF_isSome tokens (index + match_tokens (List.drop index tokens) kinds_before) [] errs
      rw [hbody] at this
      cases this
  case isFalse hc =>
    obtain ⟨e, hm, ha⟩ := add_error_append "expected main function starting" (index : Int) tokens MsgType.AT errs
    rw [ha] at h
    injection h with h1 h2
    subst h2
    simp

/-- C1: when the main recognizer fails, parse raises a recorded error whose
failure index is maximal among all recorded errors, and which is the last
recorded among those attaining that index (later-recorded errors win the
tie).  The accumulator starts empty, as for a freshly constructed
parser, so the recorded errors are exactly those of this invocation. -/
theorem claim1_farthest_error (tokens : List Token) (k : Nat) (errsF : Errors)
    (h : expect_main tokens 0 [] = ((none, k), errsF)) :
    ∃ e idx pre suf,
      parse tokens [] = (ParseOutcome.raised e, errsF) ∧
      errsF = pre ++ (e, idx) :: suf ∧
      (∀ p ∈ errsF, p.2 ≤ idx) ∧
      (∀ p ∈ suf, p.2 < idx) := by
  have hne := expect_main_fail_errs h
  simp only [parse, h]
  cases hlast : (pySorted errsF).getLast? with
  | none =>
    rw [List.getLast?_eq_none_iff] at hlast
    exact absurd (pySorted_eq_nil.mp hlast) hne
  | some b =>
    obtain ⟨pre, suf, hdec, hmax, hsuf⟩ := pySorted_last_spec errsF b hlast
    exact ⟨b.1, b.2, pre, suf, rfl, hdec, hmax, hsuf⟩

/-- Witness for C1 at the concrete token list int: the main recognizer
fails with one recorded error and parse raises it. -/
theorem claim1_farthest_error_witness :
    ∃ e idx pre suf,
      parse [tInt] [] = (ParseOutcome.raised e,
        [(token_error "expected main function starting at \x27\x7b\x7d\x27" tInt, 0)]) ∧
      [(token_error "expected main function starting at \x27\x7b\x7d\x27" tInt, (0 : Int))] =
        pre ++ (e, idx) :: suf ∧
      (∀ p ∈ [(token_error "expected main function starting at \x27\x7b\x7d\x27" tInt, (0 : Int))],
        p.2 ≤ idx) ∧
      (∀ p ∈ suf, p.2 < idx) :=
  claim1_farthest_error [tInt] 0
    [(token_error "expected main function starting at \x27\x7b\x7d\x27" tInt, 0)] rfl

/-! The accumulator only grows: every function returns the received error
list with a (possibly empty) suffix appended. -/

lemma add_error_errs (message : String) (index : Int) (tokens : List Token)
    (message_type : MsgType) (errs : Errors) :
    ∃ suf, (add_error message index tokens message_type errs).2 = errs ++ suf := by
  obtain ⟨e, hm, ha⟩ := add_error_append message index tokens message_type errs
  exact ⟨[(e, index)], by rw [ha]⟩

lemma expect_expression_errs (tokens : List Token) (index : Nat) (errs : Errors) :
    ∃ suf, (expect_expression tokens index errs).2 = errs ++ suf := by
  unfold expect_expression
  split
  · split
    · exact ⟨[], by simp⟩
    · exact add_error_errs "expected expression" (index : Int) tokens MsgType.GOT errs
  · exact ⟨[], by simp⟩

lemma expect_semicolon_errs (node : Node) (tokens : List Token) (index : Nat)
    (errs : Errors) :
    ∃ suf, (expect_semicolon node tokens index errs).2 = errs ++ suf := by
  unfold expect_semicolon
  split
  · exact ⟨[], by simp⟩
  · exact add_error_errs "expected semicolon" (index : Int) tokens MsgType.AFTER errs

lemma expect_return_errs (tokens : List Token) (index : Nat) (errs : Errors) :
    ∃ suf, (expect_return tokens index errs).2 = errs ++ suf := by
  unfold expect_return
  split
  · split
    case _ node index2 errs3 hexpr =>
      obtain ⟨s1, h1⟩ := expect_expression_errs tokens (index + 1) errs
      rw [hexpr] at h1
      obtain ⟨s2, h2⟩ := expect_semicolon_errs (Node.ReturnNode node) tokens index2 errs3
      exact ⟨s1 ++ s2, by rw [h2]; simp only at h1; rw [h1, List.append_assoc]⟩
    case _ errs3 hexpr =>
      obtain ⟨s1, h1⟩ := expect_expression_errs tokens (index + 1) errs
      rw [hexpr] at h1
      exact ⟨s1, by simp only at h1 ⊢; rw [h1]⟩
  · exact add_error_errs "expected return keyword" (index : Int) tokens MsgType.GOT errs

lemma expect_expr_statement_errs (tokens : List Token) (index : Nat) (errs : Errors) :
    ∃ suf, (expect_expr_statement tokens index errs).2 = errs ++ suf := by
  unfold expect_expr_statement
  split
  case _ node index2 errs3 hexpr =>
    obtain ⟨s1, h1⟩ := expect_expression_errs tokens index errs
    rw [hexpr] at h1
    obtain ⟨s2, h2⟩ := expect_semicolon_errs (Node.ExprStatementNode node) tokens index2 errs3
    exact ⟨s1 ++ s2, by rw [h2]; simp only at h1; rw [h1, List.append_assoc]⟩
  case _ errs3 hexpr =>
    obtain ⟨s1, h1⟩ := expect_expression_errs tokens index errs
    rw [hexpr] at h1
    exact ⟨s1, by simp only at h1 ⊢; rw [h1]⟩

lemma expect_declaration_errs (tokens : List Token) (index : Nat) (errs : Errors) :
    ∃ suf, (expect_declaration tokens index errs).2 = errs ++ suf := by
  unfold expect_declaration
  split
  · split
    · split
      · exact expect_semicolon_errs _ tokens (index + 2) errs
      · exact ⟨[], by simp⟩
    · exact add_error_errs "expected identifier" ((index : Int) + 1) tokens MsgType.AFTER errs
  · exact add_error_errs "expected type name" (index : Int) tokens MsgType.GOT errs

lemma expect_statement_errs (tokens : List Token) (index : Nat) (errs : Errors) :
    ∃ suf, (expect_statement tokens index errs).2 = errs ++ suf := by
  unfold expect_statement
  split
  case _ node ni errs3 hret =>
    obtain ⟨s1, h1⟩ := expect_return_errs tokens index errs
    rw [hret] at h1
    exact ⟨s1, by simp only at h1 ⊢; rw [h1]⟩
  case _ errs3 hret =>
    obtain ⟨s1, h1⟩ := expect_return_errs tokens index errs
    rw [hret] at h1
    simp only at h1
    subst h1
    split
    case _ node ni errs4 hexprst =>
      obtain ⟨s2, h2⟩ := expect_expr_statement_errs tokens index (errs ++ s1)
      rw [hexprst] at h2
      exact ⟨s1 ++ s2, by simp only at h2 ⊢; rw [h2, List.append_assoc]⟩
    case _ errs4 hexprst =>
      obtain ⟨s2, h2⟩ := expect_expr_statement_errs tokens index (errs ++ s1)
      rw [hexprst] at h2
      exact ⟨s1 ++ s2, by simp only at h2 ⊢; rw [h2, List.append_assoc]⟩

lemma bodyLoopF_errs (tokens : List Token) : ∀ (fuel index : Nat)
    (nodes : List Node) (errs : Errors) (r : (List Node × Nat) × Errors),
    bodyLoopF tokens fuel index nodes errs = some r →
    ∃ suf, r.2 = errs ++ suf := by
  intro fuel
  induction fuel with
  | zero => intro index nodes errs r h; cases h
  | succ fuel ih =>
    intro index nodes errs r h
    unfold bodyLoopF at h
    split at h
    case _ node ni errs3 hst =>
      obtain ⟨s1, h1⟩ := expect_statement_errs tokens index errs
      rw [hst] at h1
      simp only at h1
      subst h1
      obtain ⟨s2, h2⟩ := ih ni (nodes ++ [node]) (errs ++ s1) r h
      exact ⟨s1 ++ s2, by rw [h2, List.append_assoc]⟩
    case _ errs3 hst =>
      obtain ⟨s1, h1⟩ := expect_statement_errs tokens index errs
      rw [hst] at h1
      simp only at h1
      subst h1
      split at h
      case _ node ni errs4 hdecl =>
        obtain ⟨s2, h2⟩ := expect_declaration_errs tokens index (errs ++ s1)
        rw [hdecl] at h2
        simp only at h2
        subst h2
        obtain ⟨s3, h3⟩ := ih ni (nodes ++ [node]) (errs ++ s1 ++ s2) r h
        exact ⟨s1 ++ (s2 ++ s3), by rw [h3]; simp [List.append_assoc]⟩
      case _ errs4 hdecl =>
        obtain ⟨s2, h2⟩ := expect_declaration_errs tokens index (errs ++ s1)
        rw [hdecl] at h2
        simp only at h2
        subst h2
        injection h with h
        subst h
        exact ⟨s1 ++ s2, by simp [List.append_assoc]⟩

lemma expect_main_errs (tokens : List Token) (index : Nat) (errs : Errors) :
    ∃ suf, (expect_main tokens index errs).2 = errs ++ suf := by
  simp only [expect_main]
  split
  · split
    case _ nodes index2 errs3 hbody =>
      obtain ⟨s1, h1⟩ := bodyLoopF_errs tokens _ _ _ _ _ hbody
      simp only at h1
      subst h1
      split
      · exact ⟨s1, by simp⟩
      · obtain ⟨s2, h2⟩ := add_error_errs "expected closing brace" (index2 : Int) tokens MsgType.GOT (errs ++ s1)
        exact ⟨s1 ++ s2, by rw [h2, List.append_assoc]⟩
    case _ hbody => exact ⟨[], by simp⟩
  · exact add_error_errs "expected main function starting" (index : Int) tokens MsgType.AT errs

/-- C9 amended: the error accumulator is the state of the parser object,
shared by every parse call on it, and each call only appends to it: the
accumulator after a parse call is the received accumulator followed by a
suffix of newly recorded errors.  Because it is never reset, errors of an
earlier call can change the error raised by a later call on the same
parser (see the counterexample); independence holds only for a parse
starting from an empty accumulator. -/
theorem claim9_amended (tokens : List Token) (errs : Errors) :
    ∃ suf, (parse tokens errs).2 = errs ++ suf := by
  unfold parse
  split
  case _ node index errs2 hmain =>
    obtain ⟨s1, h1⟩ := expect_main_errs tokens 0 errs
    rw [hmain] at h1
    simp only at h1
    subst h1
    split
    · exact ⟨s1, rfl⟩
    · split <;> exact ⟨s1, rfl⟩
  case _ k errs2 hmain =>
    obtain ⟨s1, h1⟩ := expect_main_errs tokens 0 errs
    rw [hmain] at h1
    simp only at h1
    subst h1
    split <;> exact ⟨s1, rfl⟩

/-- C2 amended: the expression engine succeeds exactly through the bottom
entry of the final stack: whenever it returns a node, that node is the
bottom stack entry after scanning stops (entries above it, such as a
trailing operator with no right operand, are ignored and their tokens left
unconsumed), the returned index advances by the token count of that bottom
entry, which is at least one, and nothing is recorded. -/
theorem claim2_amended (tokens : List Token) (index : Nat) (errs : Errors)
    (n : Node) (j : Nat) (errs2 : Errors)
    (h : expect_expression tokens index errs = ((some n, j), errs2)) :
    ∃ stack i2 len,
      exprLoopF tokens (4 * tokens.length + 1) [] index = some (stack, i2) ∧
      stack.getLast? = some ⟨StackEntry.node n, len⟩ ∧
      j = index + len ∧ 1 ≤ len ∧ errs2 = errs := by
  unfold expect_expression at h
  split at h
  case _ stack i2 hloop =>
    split at h
    case _ m len hlast =>
      injection h with h1 h2
      injection h1 with h1a h1b
      injection h1a with hmn
      subst hmn
      refine ⟨stack, i2, len, hloop, hlast, h1b.symm, ?_, h2.symm⟩
      by_cases hidx : index ≤ tokens.length
      · have hok : StackOK ([] : List StackItem) := by
          intro s hs; cases hs
        obtain ⟨hok2, _, _, _⟩ :=
          exprLoopF_spec tokens (4 * tokens.length + 1) [] index stack i2 hloop hok hidx
        have hmem : (⟨StackEntry.node m, len⟩ : StackItem) ∈ stack := getLast?_mem2 hlast
        simpa using (hok2 _ hmem).1
      · have hstep : exprLoopF tokens (4 * tokens.length + 1) [] index = some ([], index) := by
          unfold exprLoopF
          have hred : reduceStep tokens [] index = none := rfl
          rw [hred]
          rw [if_neg (show ¬ index = tokens.length by omega)]
          have hget : tokens.get? index = none := by
            cases hg : tokens.get? index with
            | none => rfl
            | some t =>
              have := get?_some_lt hg
              omega
          rw [hget]
        rw [hstep] at hloop
        injection hloop with hloop
        injection hloop with ha hb
        subst ha
        cases hlast
    case _ hlast =>
      have hshape := add_error_fst "expected expression" (index : Int) tokens MsgType.GOT errs
      rw [h] at hshape
      simp at hshape
  case _ =>
    injection h with h1 h2
    injection h1 with h1a h1b
    cases h1a

/-- Witness for the amended C2 on the single token 1. -/
theorem claim2_amended_witness :
    ∃ stack i2 len,
      exprLoopF [tNum1] (4 * [tNum1].length + 1) [] 0 = some (stack, i2) ∧
      stack.getLast? = some ⟨StackEntry.node (Node.NumberNode tNum1), len⟩ ∧
      1 = 0 + len ∧ 1 ≤ len ∧ ([] : Errors) = [] :=
  claim2_amended [tNum1] 0 [] (Node.NumberNode tNum1) 1 [] rfl

/-- C6 amended: when the prologue has matched and the body loop has
finished but no closing brace follows, expect_main records the failure
with the GOT message style (rendering expected closing brace, got the
token at the failure index; make_error clamps to the AFTER style when that
index is past the end of the tokens). -/
theorem claim6_amended (tokens : List Token) (index : Nat) (errs : Errors)
    (res : (List Node × Nat) × Errors)
    (h1 : match_tokens (tokens.drop index) kinds_before ≠ 0)
    (h2 : bodyLoopF tokens (tokens.length + 2) (index + 5) [] errs = some res)
    (h3 : match_token (tokens.drop res.1.2) TokenKind.close_brack = 0) :
    expect_main tokens index errs =
      add_error "expected closing brace" (res.1.2 : Int) tokens MsgType.GOT res.2 := by
  have h5 : match_tokens (tokens.drop index) kinds_before = 5 := by
    have := (match_tokens_ne_zero h1).1
    simpa [kinds_before] using this
  rcases res with ⟨⟨nodes, index2⟩, errs3⟩
  simp only at h2 h3 ⊢
  simp only [expect_main, h5]
  rw [if_pos (by decide : (5 : Nat) ≠ 0)]
  rw [h2]
  dsimp only
  rw [if_neg (by simp [h3])]

/-- Witness for the amended C6 on the tokens of int main ( ) \x7b x. -/
theorem claim6_amended_witness :
    expect_main [tInt, tMain, tOP, tCP, tOB, tIdX] 0 [] =
      add_error "expected closing brace" (5 : Int) [tInt, tMain, tOP, tCP, tOB, tIdX]
        MsgType.GOT
        [(token_error "expected return keyword, got \x27\x7b\x7d\x27" tIdX, 5),
         (token_error "expected semicolon after \x27\x7b\x7d\x27" tIdX, 6),
         (token_error "expected type name, got \x27\x7b\x7d\x27" tIdX, 5)] :=
  claim6_amended [tInt, tMain, tOP, tCP, tOB, tIdX] 0 []
    (([], 5),
     [(token_error "expected return keyword, got \x27\x7b\x7d\x27" tIdX, 5),
      (token_error "expected semicolon after \x27\x7b\x7d\x27" tIdX, 6),
      (token_error "expected type name, got \x27\x7b\x7d\x27" tIdX, 5)])
    (by decide) rfl rfl

lemma pyGet_zero (t : Token) (ts : List Token) : pyGet (t :: ts) 0 = some t := by
  simp only [pyGet]
  rw [if_neg (by decide : ¬ (0 : Int) < 0)]
  rw [if_pos ?_]
  · rfl
  · refine ⟨le_refl 0, ?_⟩
    simp only [List.length_cons]
    push_cast
    omega

/-- C8 amended: in make_error, a failure index at or before zero is
clamped to zero and only the AFTER style is replaced by GOT; the AT and
GOT styles are kept, all anchored at the first token. -/
theorem claim8_amended (message : String) (index : Int) (t : Token) (ts : List Token)
    (h : index ≤ 0) :
    make_error message index (t :: ts) MsgType.AFTER =
      some (token_error (message ++ ", got \x27\x7b\x7d\x27") t) ∧
    make_error message index (t :: ts) MsgType.GOT =
      some (token_error (message ++ ", got \x27\x7b\x7d\x27") t) ∧
    make_error message index (t :: ts) MsgType.AT =
      some (token_error (message ++ " at \x27\x7b\x7d\x27") t) := by
  have hnotbig : ¬ index ≥ (((t :: ts).length : Nat) : Int) := by
    simp only [List.length_cons]
    push_cast
    omega
  refine ⟨?_, ?_, ?_⟩
  · simp only [make_error]
    rw [if_neg (by simp : ¬ (t :: ts).length = 0)]
    rw [if_neg hnotbig, if_pos h]
    simp [pyGet_zero, token_error]
  · simp only [make_error]
    rw [if_neg (by simp : ¬ (t :: ts).length = 0)]
    rw [if_neg hnotbig, if_pos h]
    simp [pyGet_zero, token_error]
  · simp only [make_error]
    rw [if_neg (by simp : ¬ (t :: ts).length = 0)]
    rw [if_neg hnotbig, if_pos h]
    simp [pyGet_zero, token_error]

/-- Witness for the amended C8 at index minus one. -/
theorem claim8_amended_witness :
    make_error "m" (-1) [tSemi] MsgType.AFTER =
      some (token_error ("m" ++ ", got \x27\x7b\x7d\x27") tSemi) ∧
    make_error "m" (-1) [tSemi] MsgType.GOT =
      some (token_error ("m" ++ ", got \x27\x7b\x7d\x27") tSemi) ∧
    make_error "m" (-1) [tSemi] MsgType.AT =
      some (token_error ("m" ++ " at \x27\x7b\x7d\x27") tSemi) :=
  claim8_amended "m" (-1) tSemi [] (by decide)
